import Mathlib

/-!
Shallow embedding of the reconciliation core of the audico product management
system: the record parser (`data_parser.py`), the validator/cleaner
(`data_validator.py`), the search-based comparison engine
(`product_comparator.py`) and the fast-comparison endpoint (`app.py`).

Strings are modeled as lists of natural-number character codes (`Str`), so the
Python string operations (`strip`, `re.sub` whitespace collapse, character
filtering, `capitalize`, `lower`) become explicit executable functions.
Python floats are modeled as exact rationals.
-/

namespace Audico

/-- Strings as lists of character codes. -/
abbrev Str := List Nat

/-- Turn a Lean string literal into its code list (used for concrete inputs). -/
def strCodes (s : String) : Str := s.toList.map Char.toNat

/-- Python `\s` on the ASCII range: space, tab, newline, carriage return,
vertical tab, form feed. -/
def isSpaceC (c : Nat) : Bool := c == 32 || c == 9 || c == 10 || c == 13 || c == 11 || c == 12

def isDigitC (c : Nat) : Bool := 48 ≤ c && c ≤ 57

def isUpperC (c : Nat) : Bool := 65 ≤ c && c ≤ 90

def isLowerC (c : Nat) : Bool := 97 ≤ c && c ≤ 122

/-- Python `\w` on the ASCII range: alphanumeric or underscore. -/
def isWordC (c : Nat) : Bool := isDigitC c || isUpperC c || isLowerC c || c == 95

/-- The allow-listed punctuation of `_clean_text`: `- . , ( ) /`. -/
def isKeptPunct (c : Nat) : Bool := c == 45 || c == 46 || c == 44 || c == 40 || c == 41 || c == 47

/-- A character surviving `re.sub(r'[^\w\s\-\.\,\(\)\/]', '', text)`. -/
def isAllowedC (c : Nat) : Bool := isWordC c || isSpaceC c || isKeptPunct c

/-- ASCII lower-casing, as Python `str.lower` acts on ASCII text. -/
def toLowerC (c : Nat) : Nat := if isUpperC c then c + 32 else c

/-- ASCII upper-casing, as Python `str.upper` acts on ASCII text. -/
def toUpperC (c : Nat) : Nat := if isLowerC c then c - 32 else c

def lowerStr (s : Str) : Str := s.map toLowerC

namespace Validator

/-! ### data_validator.py -/

/-- `ValidationResult` dataclass of `data_validator.py`. -/
structure ValidationResult where
  is_valid : Bool
  confidence_score : ℚ
  errors : List String
  warnings : List String
  suggestions : List String
  deriving Repr, DecidableEq

/-- The slice of a parsed product dict that `validate_product` and
`clean_product_data` inspect.  `none` models an absent key. -/
structure VProduct where
  name : Option Str
  price : Option ℚ
  currency : Option Str
  deriving Repr, DecidableEq

/-- `self.min_price` -/
def min_price : ℚ := 1

/-- `self.min_name_length` -/
def min_name_length : Nat := 3

/-- Python truthiness of `product.get('name')`: key present and non-empty. -/
def truthyStr (s : Option Str) : Bool :=
  match s with
  | none => false
  | some t => !(t.isEmpty)

/-- Python truthiness of a numeric value: nonzero. -/
def truthyQ (q : ℚ) : Bool := q != 0

/-- `validate_product` of `data_validator.py`: penalties −0.3 (missing name),
−0.2 (short name), −0.4 (missing/non-positive price), −0.1 (price below
`min_price`), final score clamped to [0, 1].  `product.get('price', 0)`
defaults an absent price to 0. -/
def validate_product (p : VProduct) : ValidationResult :=
  let price : ℚ := p.price.getD 0
  let nameStep : ℚ × List String :=
    if !(truthyStr p.name) then
      (3/10, ["Product name is required"])
    else if ((p.name.getD []).length < min_name_length) then
      (2/10, ["Product name too short (minimum 3 characters)"])
    else (0, [])
  let priceStep : ℚ × List String × List String :=
    if !(truthyQ price) || price ≤ 0 then
      (4/10, ["Valid price is required"], [])
    else if price < min_price then
      (1/10, [], ["Price seems very low"])
    else (0, [], [])
  let confidence := max (0 : ℚ) (min 1 (1 - nameStep.1 - priceStep.1))
  { is_valid := (nameStep.2 ++ priceStep.2.1).isEmpty
    confidence_score := confidence
    errors := nameStep.2 ++ priceStep.2.1
    warnings := priceStep.2.2
    suggestions := [] }

/-- Round-half-even of a rational to an integer, as Python `round`. -/
def pyRoundInt (q : ℚ) : ℤ :=
  let f : ℚ := q - ⌊q⌋
  if f < 1/2 then ⌊q⌋
  else if 1/2 < f then ⌊q⌋ + 1
  else if ⌊q⌋ % 2 = 0 then ⌊q⌋ else ⌊q⌋ + 1

/-- Python `round(x, 2)`. -/
def round2 (q : ℚ) : ℚ := (pyRoundInt (q * 100) : ℚ) / 100

/-- `_clean_text` step 1: `text.strip()` (drop leading and trailing whitespace). -/
def strip (s : Str) : Str :=
  ((s.dropWhile isSpaceC).reverse.dropWhile isSpaceC).reverse

/-- `_clean_text` step 2: `re.sub(r'\s+', ' ', text)` — collapse every
maximal whitespace run to a single space. -/
def collapseWs : Str → Str
  | [] => []
  | [c] => if isSpaceC c then [32] else [c]
  | c :: d :: rest =>
    if isSpaceC c && isSpaceC d then collapseWs (d :: rest)
    else (if isSpaceC c then 32 else c) :: collapseWs (d :: rest)

/-- `_clean_text`: strip, collapse whitespace, drop disallowed characters. -/
def cleanText (s : Str) : Str := (collapseWs (strip s)).filter isAllowedC

/-- Python `str.split()` (split on whitespace runs, dropping empty pieces);
`acc` accumulates the current word in reverse. -/
def splitWsAux : Str → Str → List Str
  | [], acc => if acc.isEmpty then [] else [acc.reverse]
  | c :: rest, acc =>
    if isSpaceC c then
      if acc.isEmpty then splitWsAux rest [] else acc.reverse :: splitWsAux rest []
    else splitWsAux rest (c :: acc)

def splitWs (s : Str) : List Str := splitWsAux s []

/-- `' '.join(words)`: words separated by single spaces. -/
def joinSpace : List Str → Str
  | [] => []
  | [w] => w
  | w :: rest => w ++ 32 :: joinSpace rest

/-- Python `str.capitalize()`: first character upper-cased, the rest lower-cased. -/
def capWord (w : Str) : Str :=
  match w with
  | [] => []
  | c :: rest => toUpperC c :: rest.map toLowerC

/-- Python `str.lower()`. -/
def lowWord (w : Str) : Str := w.map toLowerC

/-- The `lowercase_words` stop-word set of `_capitalize_properly`. -/
def stopWords : List Str :=
  ["and", "or", "the", "in", "on", "at", "to", "for", "of", "with"].map strCodes

/-- The indexed word loop of `_capitalize_properly`. -/
def capWords : Nat → List Str → List Str
  | _, [] => []
  | i, w :: ws =>
    (if i = 0 || !(stopWords.contains (lowWord w)) then capWord w else lowWord w)
      :: capWords (i + 1) ws

/-- `_capitalize_properly`. -/
def capitalizeProperly (s : Str) : Str := joinSpace (capWords 0 (splitWs s))

/-- The name pipeline of `clean_product_data`: `_clean_text` then
`_capitalize_properly`. -/
def cleanName (s : Str) : Str := capitalizeProperly (cleanText s)

/-- `clean_product_data` of `data_validator.py`. -/
def clean_product_data (p : VProduct) : VProduct :=
  { name := p.name.map cleanName
    price := p.price.map round2
    currency := if truthyStr p.currency then p.currency else some (strCodes "ZAR") }

/-- `_get_quality_rating`. -/
def get_quality_rating (confidence : ℚ) : String :=
  if 9/10 ≤ confidence then "Excellent"
  else if 8/10 ≤ confidence then "Good"
  else if 7/10 ≤ confidence then "Fair"
  else if 6/10 ≤ confidence then "Poor"
  else "Very Poor"

end Validator

namespace Parser

/-! ### data_parser.py

The regular-expression engine is external; a source line is therefore
represented by its raw character codes together with the list of numeric
token strings that the four `price_patterns` matched on it. -/

/-- Sorted deduplication, as Python `sorted(set(xs))` (ascending, distinct). -/
def dedupSort (l : List ℚ) : List ℚ :=
  List.insertionSort (fun a b => a ≤ b) l.dedup

/-- The digit-string value, e.g. `"1234"` ↦ 1234. -/
def digitsVal (s : Str) : Nat := s.foldl (fun acc c => 10 * acc + (c - 48)) 0

/-- Python `float(s)` for a token made of digits and at most one dot;
`none` models the `ValueError` a second dot provokes (caught by the
harvesting loop). -/
def parseFloatTok (s : Str) : Option ℚ :=
  if (s.filter (fun c => c == 46)).length ≤ 1 then
    let ip := s.takeWhile (fun c => c != 46)
    let fp := (s.dropWhile (fun c => c != 46)).drop 1
    some ((digitsVal ip : ℚ) + (digitsVal fp : ℚ) / (10 : ℚ) ^ fp.length)
  else none

/-- The body of the harvesting loop of `_extract_all_prices_from_line`: clean
the matched token (`replace(',','').replace(' ','')`), require
`price_str.replace('.','').isdigit()`, parse, and keep the value only when
`500 <= price <= 500000`. -/
def harvestTok (s : Str) : Option ℚ :=
  let ps := s.filter (fun c => !(c == 44 || c == 32))
  let digitsOnly := ps.filter (fun c => c != 46)
  if !(ps.isEmpty) && !(digitsOnly.isEmpty) && digitsOnly.all isDigitC then
    match parseFloatTok ps with
    | some price => if 500 ≤ price && price ≤ 500000 then some price else none
    | none => none
  else none

/-- `_extract_all_prices_from_line`, acting on the regex-matched numeric
token strings of the line: harvest each token, then `sorted(set(prices))`. -/
def extract_all_prices_from_line (toks : List Str) : List ℚ :=
  dedupSort (toks.filterMap harvestTok)

/-- A source line: raw text plus the numeric tokens the `price_patterns`
regexes matched on it. -/
structure Line where
  raw : Str
  priceToks : List Str
  deriving Repr, DecidableEq

/-- The per-offset body of `_find_prices_in_context`: a context line
contributes its prices when it mentions the product identifier (Python
`product_identifier and product_identifier in context_line`) or is an
immediate neighbour. -/
def contextContrib (lines : List Line) (lineIndex : ℤ) (ident : Str) (off : ℤ) : List ℚ :=
  let idx := lineIndex + off
  if h : 0 ≤ idx ∧ idx.toNat < lines.length then
    let contextLine := lines.get ⟨idx.toNat, h.2⟩
    if (!(ident.isEmpty) && decide (ident <:+: contextLine.raw)) || off = -1 || off = 1 then
      extract_all_prices_from_line contextLine.priceToks
    else []
  else []

/-- `_find_prices_in_context`: offsets −3..3, skipping 0, then
`sorted(set(prices))`. -/
def find_prices_in_context (lines : List Line) (lineIndex : ℤ) (ident : Str) : List ℚ :=
  dedupSort (([-3, -2, -1, 1, 2, 3] : List ℤ).flatMap (contextContrib lines lineIndex ident))

/-- The price-assignment step of `_extract_denon_product`:
`prices = sorted(set(prices))`, then with two or more values compare
`prices[0]` and `prices[1]`; returns `(price, old_price)`. -/
def assignPrices (ps : List ℚ) : Option ℚ × Option ℚ :=
  match dedupSort ps with
  | [] => (none, none)
  | [p] => (some p, none)
  | p0 :: p1 :: _ =>
    if p0 > p1 then (some p1, some p0) else (some p0, some p1)

/-- The price-assignment step of `_alternative_parse`:
`old_price = max(prices)`, `price = min(prices)` when two or more. -/
def assignPricesAlt (ps : List ℚ) : Option ℚ × Option ℚ :=
  match ps with
  | [] => (none, none)
  | [p] => (some p, none)
  | p :: q :: rest =>
    (some ((q :: rest).foldl min p), some ((q :: rest).foldl max p))

/-- The fields of the product dict built by `_extract_denon_product` that its
emission check inspects (`name`, `model` — absent key modeled by `[]` since
`_extract_model` returns `""` on no match — `price`, `old_price`). -/
structure DProduct where
  name : Str
  model : Str
  price : Option ℚ
  old_price : Option ℚ
  deriving Repr, DecidableEq

/-- Python truthiness of `product.get('price')`. -/
def truthyPrice (p : Option ℚ) : Bool :=
  match p with
  | none => false
  | some q => q != 0

/-- `_extract_denon_product`, from the already-extracted model, cleaned name
and harvested price list: assign prices, then emit only when
`product.get('name') and (product.get('price') or product.get('model'))`. -/
def extract_denon_product (model cleanedName : Str) (prices : List ℚ) : Option DProduct :=
  if !(cleanedName.isEmpty) && (truthyPrice (assignPrices prices).1 || !(model.isEmpty)) then
    some { name := cleanedName, model := model,
           price := (assignPrices prices).1, old_price := (assignPrices prices).2 }
  else none

/-- The candidate finalization of `_alternative_parse`: assign prices with
min/max, then emit only when `product.get('name') and product.get('price')`. -/
def alternative_parse_emit (model cleanedName : Str) (prices : List ℚ) : Option DProduct :=
  if !(cleanedName.isEmpty) && truthyPrice (assignPricesAlt prices).1 then
    some { name := cleanedName, model := model,
           price := (assignPricesAlt prices).1, old_price := (assignPricesAlt prices).2 }
  else none

end Parser

namespace Comparator

/-! ### product_comparator.py -/

/-- The `status` values of `ComparisonResult` (the string constants of
`product_comparator.py`; `data_different` is listed in the dataclass comment
but never produced). -/
inductive CStatus where
  | missing
  | match_found
  | price_different
  | data_different
  deriving Repr, DecidableEq

/-- The slice of a PDF product dict that `_search_single_product` and
`_analyze_match` read. -/
structure PdfProduct where
  name : Str
  model : Str
  price : ℚ
  deriving Repr, DecidableEq

/-- An OpenCart search hit: `name` and `model` strings and the raw `price`
string that `_analyze_match` parses defensively. -/
structure OcProduct where
  name : Str
  model : Str
  priceStr : Str
  deriving Repr, DecidableEq

/-- The dict `_analyze_match` returns. -/
structure MatchAnalysis where
  product : OcProduct
  name_similarity : ℚ
  model_similarity : ℚ
  overall_similarity : ℚ
  price_difference : ℚ
  price_difference_percent : ℚ
  pdf_price : ℚ
  oc_price : ℚ
  deriving Repr, DecidableEq

/-- `ComparisonResult` dataclass. -/
structure ComparisonResult where
  pdf_product : PdfProduct
  opencart_matches : List OcProduct
  match_confidence : ℚ
  status : CStatus
  recommendations : List String
  deriving Repr, DecidableEq

/-- `self.name_similarity_threshold` (the match threshold, default 0.7). -/
def name_similarity_threshold : ℚ := 7/10

/-- `self.price_tolerance_percent` (default 5.0). -/
def price_tolerance_percent : ℚ := 5

/-- The OpenCart price cleaning of `_analyze_match`:
`re.sub(r'[^\d.,]', '', s)` then `replace(',', '')`, then `float(...)` with
an empty string defaulting to 0.  `none` models the `ValueError` of a
multi-dot string, which the surrounding `try` turns into the all-zero
analysis. -/
def parseOcPrice (s : Str) : Option ℚ :=
  let cleaned := (s.filter (fun c => isDigitC c || c == 46 || c == 44)).filter (fun c => c != 44)
  if cleaned.isEmpty then some 0
  else Parser.parseFloatTok cleaned

/-- The all-zero analysis returned by the `except` branch of `_analyze_match`. -/
def zeroAnalysis (oc : OcProduct) : MatchAnalysis :=
  { product := oc, name_similarity := 0, model_similarity := 0, overall_similarity := 0
    price_difference := 0, price_difference_percent := 0, pdf_price := 0, oc_price := 0 }

/-- `_analyze_match`, parametrized by the string-similarity function `sim`
(`SequenceMatcher(None, a, b).ratio()`, external to this repository): empty
sides give similarity 0; `overall = 0.8*model + 0.2*name` when
`model_similarity > 0.8`, else `0.7*name + 0.3*model`;
`price_difference_percent = |pdf − oc| / pdf * 100` guarded by `pdf_price > 0`. -/
def analyze_match (sim : Str → Str → ℚ) (pdf : PdfProduct) (oc : OcProduct) : MatchAnalysis :=
  match parseOcPrice oc.priceStr with
  | none => zeroAnalysis oc
  | some ocPrice =>
    let pdfName := lowerStr pdf.name
    let pdfModel := lowerStr pdf.model
    let ocName := lowerStr oc.name
    let ocModel := lowerStr oc.model
    let nameSim := if !(pdfName.isEmpty) && !(ocName.isEmpty) then sim pdfName ocName else 0
    let modelSim := if !(pdfModel.isEmpty) && !(ocModel.isEmpty) then sim pdfModel ocModel else 0
    let overall :=
      if modelSim > 8/10 then modelSim * (8/10) + nameSim * (2/10)
      else nameSim * (7/10) + modelSim * (3/10)
    let pricePct := if pdf.price > 0 then |(pdf.price - ocPrice) / pdf.price * 100| else 0
    { product := oc
      name_similarity := nameSim
      model_similarity := modelSim
      overall_similarity := overall
      price_difference := |pdf.price - ocPrice|
      price_difference_percent := pricePct
      pdf_price := pdf.price
      oc_price := ocPrice }

/-- One search term's outcome at the adapter boundary: `.error` models a
raised exception (caught with `continue`); `.ok l` models a response, where
`l = []` covers both `success=False` and empty `results` (both skipped). -/
abbrev TermOutcome := Except String (List OcProduct)

/-- The collection loop of `_search_single_product`: analyze every returned
product of every term and keep those with `overall_similarity > 0.3`. -/
def collectMatches (sim : Str → Str → ℚ) (pdf : PdfProduct)
    (outcomes : List TermOutcome) : List MatchAnalysis :=
  outcomes.flatMap (fun o =>
    match o with
    | Except.error _ => []
    | Except.ok prods =>
      (prods.map (analyze_match sim pdf)).filter (fun m => m.overall_similarity > 3/10))

/-- `all_matches.sort(key=lambda x: x['overall_similarity'], reverse=True)`:
stable descending sort by overall similarity. -/
def sortMatches (ms : List MatchAnalysis) : List MatchAnalysis :=
  List.insertionSort (fun a b => b.overall_similarity ≤ a.overall_similarity) ms

/-- The recommendation list of the no-candidate branch. -/
def notFoundRecs : List String := ["Product not found in store with any search term"]

/-- `_search_single_product`: collect, sort, classify.  The numeric
interpolations of the f-strings are rendered with `toString` on the exact
rationals. -/
def search_single_product (sim : Str → Str → ℚ) (pdf : PdfProduct)
    (outcomes : List TermOutcome) : ComparisonResult :=
  match sortMatches (collectMatches sim pdf outcomes) with
  | [] =>
    { pdf_product := pdf, opencart_matches := [], match_confidence := 0
      status := CStatus.missing, recommendations := notFoundRecs }
  | best :: _ =>
    if best.overall_similarity ≥ name_similarity_threshold then
      if best.price_difference_percent ≤ price_tolerance_percent then
        { pdf_product := pdf, opencart_matches := [best.product]
          match_confidence := best.overall_similarity
          status := CStatus.match_found
          recommendations :=
            ["✅ Exact match found with " ++ toString best.overall_similarity ++ " similarity",
             "Price match: PDF R" ++ toString pdf.price ++ " vs Store R" ++ toString best.oc_price] }
      else
        { pdf_product := pdf, opencart_matches := [best.product]
          match_confidence := best.overall_similarity
          status := CStatus.price_different
          recommendations :=
            ["✅ Product match found (" ++ toString best.overall_similarity ++ " similarity)",
             "💰 Price differs by " ++ toString best.price_difference_percent ++ "%",
             "PDF: R" ++ toString pdf.price ++ " vs Store: R" ++ toString best.oc_price] }
    else
      { pdf_product := pdf, opencart_matches := [best.product]
        match_confidence := best.overall_similarity
        status := CStatus.missing
        recommendations :=
          ["⚠️ Low confidence match (" ++ toString best.overall_similarity ++ " similarity)",
           "Best guess: " ++ "...",
           "Likely a new product that should be added"] }

/-- A record's fate inside the batch loop: either the term outcomes its
searches produced, or `.error e` when `_search_single_product` itself raised
(caught per record: the product is appended to `missing_products` and a
forced `missing` result is recorded). -/
abbrev RecordOutcome := Except String (List TermOutcome)

/-- The accumulating lists of `compare_products`. -/
structure BatchAcc where
  comparison_results : List ComparisonResult
  missing_products : List PdfProduct
  price_differences : List ComparisonResult
  exact_matches : List ComparisonResult
  search_errors : List String
  deriving Repr, DecidableEq

/-- The per-record body of the `compare_products` loop. -/
def stepRecord (sim : Str → Str → ℚ) (acc : BatchAcc)
    (rec : PdfProduct × RecordOutcome) : BatchAcc :=
  match rec.2 with
  | Except.error e =>
    { acc with
      search_errors := acc.search_errors ++ [e]
      missing_products := acc.missing_products ++ [rec.1]
      comparison_results := acc.comparison_results ++
        [{ pdf_product := rec.1, opencart_matches := [], match_confidence := 0
           status := CStatus.missing
           recommendations := ["Search failed: " ++ e] }] }
  | Except.ok outcomes =>
    let r := search_single_product sim rec.1 outcomes
    let acc := { acc with comparison_results := acc.comparison_results ++ [r] }
    match r.status with
    | CStatus.missing => { acc with missing_products := acc.missing_products ++ [rec.1] }
    | CStatus.price_different =>
        { acc with price_differences := acc.price_differences ++ [r] }
    | CStatus.match_found => { acc with exact_matches := acc.exact_matches ++ [r] }
    | CStatus.data_different => acc

/-- The summary dict of the report. -/
structure Summary where
  total_pdf_products : Nat
  exact_matches : Nat
  price_differences : Nat
  missing_products : Nat
  search_errors : Nat
  deriving Repr, DecidableEq

/-- The report dict `compare_products` returns on success. -/
structure Report where
  success : Bool
  summary : Summary
  missing_products : List PdfProduct
  price_differences : List ComparisonResult
  exact_matches : List ComparisonResult
  detailed_results : List ComparisonResult
  search_errors : List String
  deriving Repr, DecidableEq

/-- `compare_products`: fold the batch, then build the report with the
category counts. -/
def compare_products (sim : Str → Str → ℚ)
    (batch : List (PdfProduct × RecordOutcome)) : Report :=
  let acc := batch.foldl (stepRecord sim)
    { comparison_results := [], missing_products := [], price_differences := []
      exact_matches := [], search_errors := [] }
  { success := true
    summary :=
      { total_pdf_products := batch.length
        exact_matches := acc.exact_matches.length
        price_differences := acc.price_differences.length
        missing_products := acc.missing_products.length
        search_errors := acc.search_errors.length }
    missing_products := acc.missing_products
    price_differences := acc.price_differences
    exact_matches := acc.exact_matches
    detailed_results := acc.comparison_results
    search_errors := acc.search_errors }

/-- The keys of the dict literal `compare_products` returns on success
(its `except` branch returns `{'success', 'error'}`); in both cases there is
no `'status'` key. -/
def reportKeys : List String :=
  ["success", "method", "summary", "missing_products", "price_differences",
   "exact_matches", "detailed_results", "search_errors"]

end Comparator

namespace Api

/-! ### app.py, `/api/comparison/compare-fast` -/

/-- Python `int()` truncation toward zero on a rational. -/
def pyInt (q : ℚ) : ℤ := if 0 ≤ q then ⌊q⌋ else ⌈q⌉

/-- The scaled summary dict built by `compare_products_fast`
(`scaled_summary` has exactly these four keys; `search_errors` is dropped). -/
structure ScaledSummary where
  total_pdf_products : Nat
  exact_matches : ℤ
  price_differences : ℤ
  missing_products : ℤ
  deriving Repr, DecidableEq

/-- The observable outcome of the endpoint: a 200 response carrying the
scaled summary and the approximation note, or the 500 response of the
`except` handler. -/
inductive FastResponse where
  | ok (summary : ScaledSummary) (note : String)
  | httpError (message : String)
  deriving Repr, DecidableEq

/-- `compare_products_fast` of `app.py`: take the first 10 products, run
`compare_products`, then evaluate `result['status']`.  The report dict's keys
are `Comparator.reportKeys`; a missing key makes the subscript raise
`KeyError('status')`, which the endpoint's `except` clause converts into the
500 response.  The scaling branch (guarded here by the key being present)
transcribes `int(count * (len(products) / 10))` and the note f-string. -/
def compare_products_fast (sim : Str → Str → ℚ)
    (batch : List (Comparator.PdfProduct × Comparator.RecordOutcome)) : FastResponse :=
  let tested := batch.take 10
  let result := Comparator.compare_products sim tested
  if "status" ∈ Comparator.reportKeys then
    let ratio : ℚ := (batch.length : ℚ) / 10
    FastResponse.ok
      { total_pdf_products := batch.length
        exact_matches := pyInt ((result.summary.exact_matches : ℚ) * ratio)
        price_differences := pyInt ((result.summary.price_differences : ℚ) * ratio)
        missing_products := pyInt ((result.summary.missing_products : ℚ) * ratio) }
      ("Fast comparison - tested " ++ toString tested.length ++ " of " ++
        toString batch.length ++ " products")
  else FastResponse.httpError "Fast comparison failed: 'status'"

end Api

namespace Comparator

/-! ### Concrete inputs used by per-claim witnesses and counterexamples -/

/-- A concrete similarity stand-in for the C2 witness: 0.9 on the model pair,
0.1 on the name pair of the witness product. -/
def simC2 : Str → Str → ℚ :=
  fun a _ => if a = lowerStr (strCodes "M9") then 9/10 else 1/10

def pdfC2 : PdfProduct := { name := strCodes "Alpha", model := strCodes "M9", price := 100 }

def ocC2 : OcProduct := { name := strCodes "Beta", model := strCodes "M8", priceStr := strCodes "100" }

/-- A concrete similarity stand-in (1 on equal strings, else 0). -/
def simIndicator : Str → Str → ℚ := fun a b => if a = b then 1 else 0

def pdfC3 : PdfProduct := { name := strCodes "Test Product", model := strCodes "TP1", price := 100 }

/-- A returned catalog entry with empty name and model: both similarity
guards yield 0, so its overall similarity 0 fails the 0.3 collection filter. -/
def ocC3 : OcProduct := { name := [], model := [], priceStr := strCodes "0" }

/-- Similarity stand-in for the C1 witness: 0.5 on the model pair, 0.8 on the
name pair, so overall = 0.8*0.7 + 0.5*0.3 = 0.71. -/
def simC1 : Str → Str → ℚ :=
  fun a _ => if a = lowerStr (strCodes "M5") then 1/2 else 4/5

def pdfC1 : PdfProduct := { name := strCodes "Gamma", model := strCodes "M5", price := 100 }

/-- Store price 105 against PDF price 100: price difference exactly 5%. -/
def ocC1 : OcProduct := { name := strCodes "Gamma X", model := strCodes "M6", priceStr := strCodes "105" }

end Comparator

namespace Parser

def modelC6 : Str := strCodes "AVR-X1800H"

def nameC6 : Str := strCodes "AVR-X1800H 7.2 Ch. Receiver"

end Parser

/-! ## Shared lemmas -/

namespace Parser

theorem dedupSort_perm (l : List ℚ) : List.Perm (dedupSort l) l.dedup :=
  List.perm_insertionSort _ _

theorem mem_dedupSort {p : ℚ} {l : List ℚ} : p ∈ dedupSort l ↔ p ∈ l := by
  rw [(dedupSort_perm l).mem_iff, List.mem_dedup]

theorem dedupSort_sorted (l : List ℚ) : List.Sorted (fun a b => a ≤ b) (dedupSort l) :=
  List.sorted_insertionSort _ _

theorem dedupSort_nodup (l : List ℚ) : (dedupSort l).Nodup :=
  (dedupSort_perm l).nodup_iff.mpr l.nodup_dedup

end Parser

namespace Comparator

instance : IsTotal MatchAnalysis (fun a b => b.overall_similarity ≤ a.overall_similarity) :=
  ⟨fun a b => (le_total b.overall_similarity a.overall_similarity)⟩

instance : IsTrans MatchAnalysis (fun a b => b.overall_similarity ≤ a.overall_similarity) :=
  ⟨fun _ _ _ h1 h2 => le_trans h2 h1⟩

theorem sortMatches_perm (ms : List MatchAnalysis) : List.Perm (sortMatches ms) ms :=
  List.perm_insertionSort _ _

theorem sortMatches_head_max {ms : List MatchAnalysis} {best : MatchAnalysis}
    {rest : List MatchAnalysis} (h : sortMatches ms = best :: rest) :
    best ∈ ms ∧ ∀ m ∈ ms, m.overall_similarity ≤ best.overall_similarity := by
  have hperm := sortMatches_perm ms
  rw [h] at hperm
  have hsorted := List.sorted_insertionSort
    (fun a b => b.overall_similarity ≤ a.overall_similarity) ms
  rw [sortMatches] at h
  rw [h] at hsorted
  constructor
  · exact hperm.mem_iff.mp (List.mem_cons_self _ _)
  · intro m hm
    rcases List.mem_cons.mp (hperm.mem_iff.mpr hm) with h1 | h1
    · exact le_of_eq (by rw [h1])
    · exact List.rel_of_sorted_cons hsorted m h1

end Comparator

namespace Comparator

theorem analyze_overall_eq (sim : Str → Str → ℚ) (pdf : PdfProduct) (oc : OcProduct) :
    (analyze_match sim pdf oc).overall_similarity =
      if (analyze_match sim pdf oc).model_similarity > 8/10 then
        (analyze_match sim pdf oc).model_similarity * (8/10) +
          (analyze_match sim pdf oc).name_similarity * (2/10)
      else
        (analyze_match sim pdf oc).name_similarity * (7/10) +
          (analyze_match sim pdf oc).model_similarity * (3/10) := by
  unfold analyze_match
  cases hp : parseOcPrice oc.priceStr with
  | none => simp [zeroAnalysis]
  | some ocPrice => rfl

theorem analyze_name_sim_zero (sim : Str → Str → ℚ) (pdf : PdfProduct) (oc : OcProduct)
    (h : pdf.name = [] ∨ oc.name = []) : (analyze_match sim pdf oc).name_similarity = 0 := by
  unfold analyze_match
  cases hp : parseOcPrice oc.priceStr with
  | none => simp [zeroAnalysis]
  | some ocPrice => rcases h with h | h <;> simp [h, lowerStr]

theorem analyze_model_sim_zero (sim : Str → Str → ℚ) (pdf : PdfProduct) (oc : OcProduct)
    (h : pdf.model = [] ∨ oc.model = []) : (analyze_match sim pdf oc).model_similarity = 0 := by
  unfold analyze_match
  cases hp : parseOcPrice oc.priceStr with
  | none => simp [zeroAnalysis]
  | some ocPrice => rcases h with h | h <;> simp [h, lowerStr]

/-- Claim C2: the scoring function combines the two similarities as
`0.8*model + 0.2*name` when `model_similarity > 0.8` and as
`0.7*name + 0.3*model` otherwise; a similarity is 0 when either side of its
pair is empty; in particular `(model, name) = (0.9, 0.1)` gives overall 0.74
and `(0.5, 0.9)` gives 0.78. -/
theorem C2_weighting_switch (sim : Str → Str → ℚ) (pdf : PdfProduct) (oc : OcProduct) :
    ((analyze_match sim pdf oc).model_similarity > 8/10 →
      (analyze_match sim pdf oc).overall_similarity =
        (analyze_match sim pdf oc).model_similarity * (8/10) +
          (analyze_match sim pdf oc).name_similarity * (2/10)) ∧
    (¬ (analyze_match sim pdf oc).model_similarity > 8/10 →
      (analyze_match sim pdf oc).overall_similarity =
        (analyze_match sim pdf oc).name_similarity * (7/10) +
          (analyze_match sim pdf oc).model_similarity * (3/10)) ∧
    (pdf.name = [] ∨ oc.name = [] → (analyze_match sim pdf oc).name_similarity = 0) ∧
    (pdf.model = [] ∨ oc.model = [] → (analyze_match sim pdf oc).model_similarity = 0) ∧
    ((analyze_match sim pdf oc).model_similarity = 9/10 →
      (analyze_match sim pdf oc).name_similarity = 1/10 →
      (analyze_match sim pdf oc).overall_similarity = 74/100) ∧
    ((analyze_match sim pdf oc).model_similarity = 1/2 →
      (analyze_match sim pdf oc).name_similarity = 9/10 →
      (analyze_match sim pdf oc).overall_similarity = 78/100) := by
  refine ⟨?_, ?_, analyze_name_sim_zero sim pdf oc, analyze_model_sim_zero sim pdf oc, ?_, ?_⟩
  · intro h; rw [analyze_overall_eq, if_pos h]
  · intro h; rw [analyze_overall_eq, if_neg h]
  · intro hm hn
    rw [analyze_overall_eq, hm, hn, if_pos (by norm_num)]
    norm_num
  · intro hm hn
    rw [analyze_overall_eq, hm, hn, if_neg (by norm_num)]
    norm_num

/-- Witness for C2 at `(model_similarity, name_similarity) = (0.9, 0.1)`:
overall similarity 0.74. -/
theorem C2_weighting_switch_witness :
    (analyze_match simC2 pdfC2 ocC2).overall_similarity = 74/100 :=
  (C2_weighting_switch simC2 pdfC2 ocC2).2.2.2.2.1
    (by simp [analyze_match, parseOcPrice, Parser.parseFloatTok, Parser.digitsVal,
      simC2, pdfC2, ocC2, lowerStr, strCodes, zeroAnalysis, toLowerC, isUpperC, isDigitC])
    (by simp [analyze_match, parseOcPrice, Parser.parseFloatTok, Parser.digitsVal,
      simC2, pdfC2, ocC2, lowerStr, strCodes, zeroAnalysis, toLowerC, isUpperC, isDigitC])

theorem search_single_status_cases (sim : Str → Str → ℚ) (pdf : PdfProduct)
    (outcomes : List TermOutcome) :
    (search_single_product sim pdf outcomes).status = CStatus.missing ∨
    (search_single_product sim pdf outcomes).status = CStatus.match_found ∨
    (search_single_product sim pdf outcomes).status = CStatus.price_different := by
  unfold search_single_product
  cases h : sortMatches (collectMatches sim pdf outcomes) with
  | nil => left; rfl
  | cons best rest =>
    by_cases h1 : best.overall_similarity ≥ name_similarity_threshold
    · by_cases h2 : best.price_difference_percent ≤ price_tolerance_percent
      · right; left; simp [h1, h2]
      · right; right; simp [h1, h2]
    · left; simp [h1]

theorem compare_fold_counts (sim : Str → Str → ℚ) :
    ∀ (batch : List (PdfProduct × RecordOutcome)) (acc : BatchAcc),
    (batch.foldl (stepRecord sim) acc).exact_matches.length +
      (batch.foldl (stepRecord sim) acc).price_differences.length +
      (batch.foldl (stepRecord sim) acc).missing_products.length =
    acc.exact_matches.length + acc.price_differences.length +
      acc.missing_products.length + batch.length := by
  intro batch
  induction batch with
  | nil => intro acc; simp
  | cons r rest ih =>
    intro acc
    rw [List.foldl_cons, ih, List.length_cons]
    rcases r with ⟨p, ro⟩
    cases ro with
    | error e => simp [stepRecord]; ring
    | ok outcomes =>
      simp only [stepRecord]
      rcases search_single_status_cases sim p outcomes with h | h | h <;>
        rw [h] <;> simp <;> ring

/-- Claim C4: in every batch report, `summary.total_pdf_products` equals the
sum of the exact-match, price-difference and missing counts — every record,
including one whose per-record search raised, lands in exactly one category. -/
theorem C4_batch_invariant (sim : Str → Str → ℚ)
    (batch : List (PdfProduct × RecordOutcome)) :
    (compare_products sim batch).summary.total_pdf_products =
      (compare_products sim batch).summary.exact_matches +
      (compare_products sim batch).summary.price_differences +
      (compare_products sim batch).summary.missing_products := by
  unfold compare_products
  simp only []
  rw [compare_fold_counts sim batch]
  simp

end Comparator

namespace Api

/-- Claim C9 (code bug): the fast-comparison endpoint never returns the
scaled approximate summary.  `compare_products` returns a dict without a
`'status'` key, so `result['status']` raises `KeyError` on every request and
the endpoint answers with the 500 error response instead. -/
theorem C9_fast_compare_always_errors (sim : Str → Str → ℚ)
    (batch : List (Comparator.PdfProduct × Comparator.RecordOutcome)) :
    compare_products_fast sim batch =
      FastResponse.httpError "Fast comparison failed: 'status'" := by
  unfold compare_products_fast
  rw [if_neg (by decide)]

end Api

namespace Comparator

/-- Claim C3 counterexample: a record whose search DID return a catalog entry
— one scoring 0, below the 0.3 collection filter and hence below the match
threshold — produces exactly the same `missing` outcome, recommendation text
included, as a record whose every search term returned nothing.  Callers
cannot tell the two apart. -/
theorem C3_counterexample :
    search_single_product simIndicator pdfC3 [Except.ok [ocC3]] =
      search_single_product simIndicator pdfC3 [Except.ok []] ∧
    (search_single_product simIndicator pdfC3 [Except.ok [ocC3]]).status = CStatus.missing ∧
    (search_single_product simIndicator pdfC3 [Except.ok [ocC3]]).match_confidence = 0 ∧
    (search_single_product simIndicator pdfC3 [Except.ok [ocC3]]).recommendations =
      notFoundRecs := by
  have hA : collectMatches simIndicator pdfC3 [Except.ok [ocC3]] = [] := by
    simp [collectMatches, analyze_match, parseOcPrice, Parser.parseFloatTok, Parser.digitsVal,
      zeroAnalysis, lowerStr, strCodes, toLowerC, isUpperC, isDigitC, ocC3, pdfC3, simIndicator]
    norm_num
  have hB : collectMatches simIndicator pdfC3 [Except.ok []] = [] := by
    simp [collectMatches]
  have e1 : search_single_product simIndicator pdfC3 [Except.ok [ocC3]] =
      { pdf_product := pdfC3, opencart_matches := [], match_confidence := 0
        status := CStatus.missing, recommendations := notFoundRecs } := by
    unfold search_single_product
    rw [hA]
    rfl
  have e2 : search_single_product simIndicator pdfC3 [Except.ok []] =
      { pdf_product := pdfC3, opencart_matches := [], match_confidence := 0
        status := CStatus.missing, recommendations := notFoundRecs } := by
    unfold search_single_product
    rw [hB]
    rfl
  rw [e1, e2]
  exact ⟨rfl, rfl, rfl, rfl⟩

/-- Claim C3 (amended): a record with zero COLLECTED candidates — none
returned, or none scoring above the 0.3 collection filter — is `missing`
with confidence 0 and the "not found" recommendation; a record whose best
collected candidate scores below the 0.7 threshold (hence in (0.3, 0.7]) is
`missing` with a distinct low-confidence recommendation.  The claimed
distinction only holds for rejected candidates that survived the 0.3
filter. -/
theorem C3_amended_distinction (sim : Str → Str → ℚ) (pdf : PdfProduct)
    (outcomes : List TermOutcome) :
    (collectMatches sim pdf outcomes = [] →
      search_single_product sim pdf outcomes =
        { pdf_product := pdf, opencart_matches := [], match_confidence := 0
          status := CStatus.missing, recommendations := notFoundRecs }) ∧
    (∀ best rest, sortMatches (collectMatches sim pdf outcomes) = best :: rest →
      best.overall_similarity < name_similarity_threshold →
      (search_single_product sim pdf outcomes).status = CStatus.missing ∧
      (search_single_product sim pdf outcomes).recommendations ≠ notFoundRecs) := by
  constructor
  · intro h
    unfold search_single_product
    rw [h]
    rfl
  · intro best rest h hlow
    unfold search_single_product
    rw [h]
    dsimp only
    rw [if_neg (not_le.mpr hlow)]
    exact ⟨rfl, by simp [notFoundRecs]⟩

/-- Witness for the amended C3 in the zero-candidate case. -/
theorem C3_amended_witness :
    search_single_product simIndicator pdfC3 [Except.ok []] =
      { pdf_product := pdfC3, opencart_matches := [], match_confidence := 0
        status := CStatus.missing, recommendations := notFoundRecs } :=
  (C3_amended_distinction simIndicator pdfC3 [Except.ok []]).1 (by simp [collectMatches])

/-- Claim C1: whenever the collected candidate set is non-empty the engine
classifies by the globally highest overall similarity: at or above the 0.7
match threshold the record is `match_found` when the best candidate's price
difference is within the 5% tolerance and `price_different` beyond it; below
the threshold the record is `missing` regardless of price. -/
theorem C1_classification_rule (sim : Str → Str → ℚ) (pdf : PdfProduct)
    (outcomes : List TermOutcome)
    (h : collectMatches sim pdf outcomes ≠ []) :
    ∃ best, best ∈ collectMatches sim pdf outcomes ∧
      (∀ m ∈ collectMatches sim pdf outcomes,
        m.overall_similarity ≤ best.overall_similarity) ∧
      (search_single_product sim pdf outcomes).match_confidence =
        best.overall_similarity ∧
      (search_single_product sim pdf outcomes).status =
        (if best.overall_similarity ≥ name_similarity_threshold then
          if best.price_difference_percent ≤ price_tolerance_percent then
            CStatus.match_found
          else CStatus.price_different
        else CStatus.missing) := by
  cases hs : sortMatches (collectMatches sim pdf outcomes) with
  | nil =>
    have hp := sortMatches_perm (collectMatches sim pdf outcomes)
    rw [hs] at hp
    exact absurd hp.symm.eq_nil h
  | cons best rest =>
    obtain ⟨hmem, hmax⟩ := sortMatches_head_max hs
    refine ⟨best, hmem, hmax, ?_, ?_⟩
    · unfold search_single_product
      rw [hs]
      dsimp only
      split_ifs <;> rfl
    · unfold search_single_product
      rw [hs]
      dsimp only
      split_ifs <;> rfl

/-- Witness for C1 at the claimed boundary `overall = 0.71`,
`price_diff_pct = 5.0`: classified `match_found`. -/
theorem C1_classification_witness :
    (search_single_product simC1 pdfC1 [Except.ok [ocC1]]).status =
      CStatus.match_found := by
  have hov : (analyze_match simC1 pdfC1 ocC1).overall_similarity = 71/100 := by
    simp [analyze_match, parseOcPrice, Parser.parseFloatTok, Parser.digitsVal, simC1, pdfC1,
      ocC1, lowerStr, strCodes, zeroAnalysis, toLowerC, isUpperC, isDigitC]
    norm_num
  have hpp : (analyze_match simC1 pdfC1 ocC1).price_difference_percent = 5 := by
    simp [analyze_match, parseOcPrice, Parser.parseFloatTok, Parser.digitsVal, simC1, pdfC1,
      ocC1, lowerStr, strCodes, zeroAnalysis, toLowerC, isUpperC, isDigitC]
    norm_num
  have hcol : collectMatches simC1 pdfC1 [Except.ok [ocC1]] =
      [analyze_match simC1 pdfC1 ocC1] := by
    simp [collectMatches, hov]
    norm_num
  obtain ⟨best, hmem, hmax, hconf, hstat⟩ :=
    C1_classification_rule simC1 pdfC1 [Except.ok [ocC1]] (by rw [hcol]; simp)
  rw [hcol, List.mem_singleton] at hmem
  subst hmem
  rw [hstat, hov, hpp]
  norm_num [name_similarity_threshold, price_tolerance_percent]

end Comparator

namespace Validator

/-- Claim C7 counterexample: a record with empty name and price 0 scores
1 − 0.3 − 0.4 = 0.3, not the claimed 0.0 — the clamp never produces the
claimed floor because the name and price penalties are mutually exclusive
within each field. -/
theorem C7_counterexample :
    (validate_product { name := some [], price := some 0, currency := none }).confidence_score
        = 3/10 ∧
    (validate_product { name := some [], price := some 0, currency := none }).confidence_score
        ≠ 0 := by
  constructor <;> norm_num [validate_product, truthyStr, truthyQ]

/-- Claim C7 (amended): with an empty/missing name and non-positive price the
confidence is exactly 0.3 (the clamp to [0,1] never lifts a negative value:
0.3 is the attainable floor), a fully well-formed record scores exactly 1.0,
and every score lies in [0.3, 1]. -/
theorem C7_amended_floor_ceiling (p : VProduct) :
    (truthyStr p.name = false → p.price.getD 0 ≤ 0 →
      (validate_product p).confidence_score = 3/10) ∧
    (truthyStr p.name = true → min_name_length ≤ (p.name.getD []).length →
      min_price ≤ p.price.getD 0 →
      (validate_product p).confidence_score = 1) ∧
    3/10 ≤ (validate_product p).confidence_score ∧
    (validate_product p).confidence_score ≤ 1 := by
  refine ⟨?_, ?_, ?_⟩
  · intro h1 h2
    have ht : truthyQ (p.price.getD 0) = false ∨ p.price.getD 0 ≤ 0 := Or.inr h2
    norm_num [validate_product, h1, h2]
  · intro h1 h2 h3
    have hq : truthyQ (p.price.getD 0) = true := by
      have : (0:ℚ) < p.price.getD 0 := lt_of_lt_of_le (by norm_num [min_price]) h3
      simp [truthyQ]
      exact ne_of_gt this
    have hnp : ¬ p.price.getD 0 ≤ 0 := by
      have : (0:ℚ) < p.price.getD 0 := lt_of_lt_of_le (by norm_num [min_price]) h3
      exact not_le.mpr this
    have hlow : ¬ p.price.getD 0 < min_price := not_lt.mpr h3
    norm_num [validate_product, h1, h2, hq, hnp, hlow, Nat.not_lt.mpr h2]
  · unfold validate_product
    constructor <;> (split <;> norm_num <;> split_ifs <;> norm_num)

/-- Witness for the amended C7, instantiated at a fully well-formed record. -/
theorem C7_amended_witness :
    (validate_product
      { name := some (strCodes "Denon AVR"), price := some 100, currency := none
        : VProduct }).confidence_score = 1 :=
  (C7_amended_floor_ceiling _).2.1 (by decide) (by decide) (by norm_num [min_price])

/-! Character-level facts about the ASCII case maps used by `cleanName`. -/

theorem toLowerC_idem (c : Nat) : toLowerC (toLowerC c) = toLowerC c := by
  unfold toLowerC isUpperC
  split_ifs <;>
    first
      | rfl
      | (simp_all only [Bool.and_eq_true, decide_eq_true_eq]; omega)

theorem toLowerC_toUpperC (c : Nat) : toLowerC (toUpperC c) = toLowerC c := by
  unfold toLowerC toUpperC isUpperC isLowerC
  split_ifs <;>
    first
      | rfl
      | (simp_all only [Bool.and_eq_true, decide_eq_true_eq]; omega)

theorem toUpperC_toUpperC (c : Nat) : toUpperC (toUpperC c) = toUpperC c := by
  unfold toUpperC isLowerC
  split_ifs <;>
    first
      | rfl
      | (simp_all only [Bool.and_eq_true, decide_eq_true_eq]; omega)

theorem isSpaceC_iff (c : Nat) :
    isSpaceC c = true ↔ (c = 32 ∨ c = 9 ∨ c = 10 ∨ c = 13 ∨ c = 11 ∨ c = 12) := by
  simp [isSpaceC]
  tauto

theorem isSpaceC_toLowerC (c : Nat) : isSpaceC (toLowerC c) = isSpaceC c := by
  rw [Bool.eq_iff_iff, isSpaceC_iff, isSpaceC_iff]
  unfold toLowerC isUpperC
  split_ifs with h
  · simp only [Bool.and_eq_true, decide_eq_true_eq] at h
    omega
  · exact Iff.rfl

theorem isSpaceC_toUpperC (c : Nat) : isSpaceC (toUpperC c) = isSpaceC c := by
  rw [Bool.eq_iff_iff, isSpaceC_iff, isSpaceC_iff]
  unfold toUpperC isLowerC
  split_ifs with h
  · simp only [Bool.and_eq_true, decide_eq_true_eq] at h
    omega
  · exact Iff.rfl

theorem isAllowedC_toLowerC (c : Nat) (h : isAllowedC c = true) :
    isAllowedC (toLowerC c) = true := by
  unfold toLowerC
  split_ifs with hu
  · unfold isUpperC at hu
    simp only [Bool.and_eq_true, decide_eq_true_eq] at hu
    unfold isAllowedC isWordC isDigitC isUpperC isLowerC isSpaceC isKeptPunct
    simp only [Bool.or_eq_true, Bool.and_eq_true, decide_eq_true_eq, Nat.beq_eq_true_eq]
    omega
  · exact h

theorem isAllowedC_toUpperC (c : Nat) (h : isAllowedC c = true) :
    isAllowedC (toUpperC c) = true := by
  unfold toUpperC
  split_ifs with hu
  · unfold isLowerC at hu
    simp only [Bool.and_eq_true, decide_eq_true_eq] at hu
    unfold isAllowedC isWordC isDigitC isUpperC isLowerC isSpaceC isKeptPunct
    simp only [Bool.or_eq_true, Bool.and_eq_true, decide_eq_true_eq, Nat.beq_eq_true_eq]
    omega
  · exact h

/-! Word-level facts about `capWord` and `lowWord`. -/

theorem lowWord_idem (w : Str) : lowWord (lowWord w) = lowWord w := by
  unfold lowWord
  rw [List.map_map]
  exact List.map_congr_left (fun c _ => toLowerC_idem c)

theorem lowWord_capWord (w : Str) : lowWord (capWord w) = lowWord w := by
  cases w with
  | nil => rfl
  | cons c rest =>
    unfold capWord lowWord
    simp only [List.map_cons, List.map_map, List.cons.injEq]
    exact ⟨toLowerC_toUpperC c, List.map_congr_left (fun d _ => toLowerC_idem d)⟩

theorem capWord_capWord (w : Str) : capWord (capWord w) = capWord w := by
  cases w with
  | nil => rfl
  | cons c rest =>
    unfold capWord
    simp only [List.map_map, List.cons.injEq]
    exact ⟨toUpperC_toUpperC c, List.map_congr_left (fun d _ => toLowerC_idem d)⟩

theorem capWord_ne_nil {w : Str} (h : w ≠ []) : capWord w ≠ [] := by
  cases w with
  | nil => exact absurd rfl h
  | cons c rest => simp [capWord]

theorem lowWord_ne_nil {w : Str} (h : w ≠ []) : lowWord w ≠ [] := by
  cases w with
  | nil => exact absurd rfl h
  | cons c rest => simp [lowWord]

/-- The character invariant carried through `_capitalize_properly`: allowed,
non-whitespace characters stay allowed and non-whitespace under both case
maps. -/
def goodChar (c : Nat) : Prop := isAllowedC c = true ∧ isSpaceC c = false

theorem goodChar_toLowerC {c : Nat} (h : goodChar c) : goodChar (toLowerC c) :=
  ⟨isAllowedC_toLowerC c h.1, by rw [isSpaceC_toLowerC]; exact h.2⟩

theorem goodChar_toUpperC {c : Nat} (h : goodChar c) : goodChar (toUpperC c) :=
  ⟨isAllowedC_toUpperC c h.1, by rw [isSpaceC_toUpperC]; exact h.2⟩

theorem capWord_chars {w : Str} (h : ∀ c ∈ w, goodChar c) :
    ∀ c ∈ capWord w, goodChar c := by
  cases w with
  | nil => simp [capWord]
  | cons c rest =>
    intro d hd
    unfold capWord at hd
    rcases List.mem_cons.mp hd with h1 | h1
    · exact h1 ▸ goodChar_toUpperC (h c (List.mem_cons_self _ _))
    · obtain ⟨e, he, hde⟩ := List.mem_map.mp h1
      exact hde ▸ goodChar_toLowerC (h e (List.mem_cons_of_mem _ he))

theorem lowWord_chars {w : Str} (h : ∀ c ∈ w, goodChar c) :
    ∀ c ∈ lowWord w, goodChar c := by
  intro d hd
  obtain ⟨e, he, hde⟩ := List.mem_map.mp hd
  exact hde ▸ goodChar_toLowerC (h e he)

/-! Unfolding equations (definitional) for the recursive string functions. -/

theorem splitWsAux_nil (acc : Str) :
    splitWsAux [] acc = if acc.isEmpty then [] else [acc.reverse] := rfl

theorem splitWsAux_cons (c : Nat) (s acc : Str) :
    splitWsAux (c :: s) acc =
      if isSpaceC c then
        (if acc.isEmpty then splitWsAux s [] else acc.reverse :: splitWsAux s [])
      else splitWsAux s (c :: acc) := rfl

theorem collapseWs_one (c : Nat) : collapseWs [c] = if isSpaceC c then [32] else [c] := rfl

theorem collapseWs_two (c d : Nat) (rest : Str) :
    collapseWs (c :: d :: rest) =
      if isSpaceC c && isSpaceC d then collapseWs (d :: rest)
      else (if isSpaceC c then 32 else c) :: collapseWs (d :: rest) := rfl

theorem capWords_cons (i : Nat) (w : Str) (ws : List Str) :
    capWords i (w :: ws) =
      (if i = 0 || !(stopWords.contains (lowWord w)) then capWord w else lowWord w)
        :: capWords (i + 1) ws := rfl

theorem joinSpace_two (w w2 : Str) (rest : List Str) :
    joinSpace (w :: w2 :: rest) = w ++ 32 :: joinSpace (w2 :: rest) := rfl

/-! `str.split()` facts. -/

theorem splitWsAux_spec (s : Str) : ∀ acc : Str, (∀ c ∈ acc, isSpaceC c = false) →
    ∀ w ∈ splitWsAux s acc, w ≠ [] ∧ ∀ c ∈ w, (c ∈ s ∨ c ∈ acc) ∧ isSpaceC c = false := by
  induction s with
  | nil =>
    intro acc hacc w hw
    rw [splitWsAux_nil] at hw
    split at hw
    · simp at hw
    · next hne =>
      rw [List.mem_singleton] at hw
      subst hw
      refine ⟨by simpa using hne, ?_⟩
      intro c hc
      rw [List.mem_reverse] at hc
      exact ⟨Or.inr hc, hacc c hc⟩
  | cons a rest ih =>
    intro acc hacc w hw
    rw [splitWsAux_cons] at hw
    split at hw
    · split at hw
      · obtain ⟨h1, h2⟩ := ih [] (by simp) w hw
        refine ⟨h1, fun c hc => ?_⟩
        obtain ⟨hmem, hns⟩ := h2 c hc
        exact ⟨Or.inl (List.mem_cons_of_mem _ (hmem.resolve_right (by simp))), hns⟩
      · next hne =>
        rcases List.mem_cons.mp hw with h1 | h1
        · subst h1
          refine ⟨by simpa using hne, ?_⟩
          intro c hc
          rw [List.mem_reverse] at hc
          exact ⟨Or.inr hc, hacc c hc⟩
        · obtain ⟨h1, h2⟩ := ih [] (by simp) w h1
          refine ⟨h1, fun c hc => ?_⟩
          obtain ⟨hmem, hns⟩ := h2 c hc
          exact ⟨Or.inl (List.mem_cons_of_mem _ (hmem.resolve_right (by simp))), hns⟩
    · next hsp =>
      have ha : isSpaceC a = false := by simpa using hsp
      obtain ⟨h1, h2⟩ := ih (a :: acc)
        (by
          intro c hc
          rcases List.mem_cons.mp hc with h3 | h3
          · exact h3 ▸ ha
          · exact hacc c h3) w hw
      refine ⟨h1, fun c hc => ?_⟩
      obtain ⟨hmem, hns⟩ := h2 c hc
      refine ⟨?_, hns⟩
      rcases hmem with h3 | h3
      · exact Or.inl (List.mem_cons_of_mem _ h3)
      · rcases List.mem_cons.mp h3 with h4 | h4
        · exact Or.inl (h4 ▸ List.mem_cons_self _ _)
        · exact Or.inr h4

theorem splitWs_spec (s : Str) : ∀ w ∈ splitWs s,
    w ≠ [] ∧ ∀ c ∈ w, c ∈ s ∧ isSpaceC c = false := by
  intro w hw
  obtain ⟨h1, h2⟩ := splitWsAux_spec s [] (by simp) w hw
  refine ⟨h1, fun c hc => ?_⟩
  obtain ⟨hmem, hns⟩ := h2 c hc
  exact ⟨hmem.resolve_right (by simp), hns⟩

theorem splitWsAux_word (w : Str) (hw : ∀ c ∈ w, isSpaceC c = false) :
    ∀ (s acc : Str), splitWsAux (w ++ s) acc = splitWsAux s (w.reverse ++ acc) := by
  induction w with
  | nil => intro s acc; simp
  | cons c w2 ih =>
    intro s acc
    rw [List.cons_append, splitWsAux_cons, if_neg, ih (fun d hd => hw d (List.mem_cons_of_mem _ hd)) s (c :: acc)]
    · congr 1
      simp
    · simp [hw c (List.mem_cons_self _ _)]

theorem splitWs_joinSpace (ws : List Str)
    (h : ∀ w ∈ ws, w ≠ [] ∧ ∀ c ∈ w, isSpaceC c = false) :
    splitWs (joinSpace ws) = ws := by
  induction ws with
  | nil => rfl
  | cons w ws2 ih =>
    obtain ⟨hw1, hw2⟩ := h w (List.mem_cons_self _ _)
    cases ws2 with
    | nil =>
      show splitWsAux (joinSpace [w]) [] = [w]
      have : joinSpace [w] = w ++ [] := by simp [joinSpace]
      rw [this, splitWsAux_word w hw2 [] [], splitWsAux_nil]
      rw [if_neg (by simpa using (by simpa using hw1 : w ≠ []))]
      simp
    | cons w2 ws3 =>
      show splitWsAux (joinSpace (w :: w2 :: ws3)) [] = w :: w2 :: ws3
      rw [joinSpace_two, splitWsAux_word w hw2 (32 :: joinSpace (w2 :: ws3)) [],
        splitWsAux_cons]
      rw [if_pos (by simp [isSpaceC])]
      rw [if_neg (by simpa using (by simpa using hw1 : w ≠ []))]
      rw [List.append_nil, List.reverse_reverse]
      have := ih (fun v hv => h v (List.mem_cons_of_mem _ hv))
      rw [show splitWsAux (joinSpace (w2 :: ws3)) [] = splitWs (joinSpace (w2 :: ws3)) from rfl,
        this]

/-! Facts about `' '.join`. -/

theorem mem_joinSpace (ws : List Str) : ∀ c ∈ joinSpace ws, c = 32 ∨ ∃ w ∈ ws, c ∈ w := by
  induction ws with
  | nil => simp [joinSpace]
  | cons w ws2 ih =>
    cases ws2 with
    | nil =>
      intro c hc
      exact Or.inr ⟨w, List.mem_cons_self _ _, by simpa [joinSpace] using hc⟩
    | cons w2 ws3 =>
      intro c hc
      rw [joinSpace_two] at hc
      rcases List.mem_append.mp hc with h1 | h1
      · exact Or.inr ⟨w, List.mem_cons_self _ _, h1⟩
      · rcases List.mem_cons.mp h1 with h2 | h2
        · exact Or.inl h2
        · rcases ih c h2 with h3 | ⟨v, hv, hcv⟩
          · exact Or.inl h3
          · exact Or.inr ⟨v, List.mem_cons_of_mem _ hv, hcv⟩

theorem joinSpace_ne_nil (ws : List Str) (hne : ws ≠ []) (h : ∀ w ∈ ws, w ≠ []) :
    joinSpace ws ≠ [] := by
  cases ws with
  | nil => exact absurd rfl hne
  | cons w ws2 =>
    cases ws2 with
    | nil => exact h w (List.mem_cons_self _ _)
    | cons w2 ws3 =>
      rw [joinSpace_two]
      intro hcon
      rcases List.append_eq_nil.mp hcon with ⟨_, h2⟩
      exact List.cons_ne_nil _ _ h2

theorem joinSpace_head (ws : List Str) (h : ∀ w ∈ ws, w ≠ []) :
    ∀ c ∈ (joinSpace ws).head?, ∃ w ∈ ws, c ∈ w := by
  cases ws with
  | nil => simp [joinSpace]
  | cons w ws2 =>
    cases ws2 with
    | nil =>
      intro c hc
      exact ⟨w, List.mem_cons_self _ _, List.mem_of_mem_head? hc⟩
    | cons w2 ws3 =>
      intro c hc
      rw [joinSpace_two, List.head?_append_of_ne_nil w (h w (List.mem_cons_self _ _))] at hc
      exact ⟨w, List.mem_cons_self _ _, List.mem_of_mem_head? hc⟩

theorem joinSpace_last (ws : List Str) (h : ∀ w ∈ ws, w ≠ []) :
    ∀ c ∈ (joinSpace ws).getLast?, ∃ w ∈ ws, c ∈ w := by
  induction ws with
  | nil => simp [joinSpace]
  | cons w ws2 ih =>
    cases ws2 with
    | nil =>
      intro c hc
      exact ⟨w, List.mem_cons_self _ _, List.mem_of_mem_getLast? hc⟩
    | cons w2 ws3 =>
      intro c hc
      have hjoin : joinSpace (w2 :: ws3) ≠ [] :=
        joinSpace_ne_nil _ (List.cons_ne_nil _ _) (fun v hv => h v (List.mem_cons_of_mem _ hv))
      rw [joinSpace_two,
        List.getLast?_append_of_ne_nil w (List.cons_ne_nil _ _),
        show (32 :: joinSpace (w2 :: ws3)) = [32] ++ joinSpace (w2 :: ws3) from rfl,
        List.getLast?_append_of_ne_nil [32] hjoin] at hc
      obtain ⟨v, hv, hcv⟩ := ih (fun v hv => h v (List.mem_cons_of_mem _ hv)) c hc
      exact ⟨v, List.mem_cons_of_mem _ hv, hcv⟩

theorem chain_nonspace (w : Str) (hw : ∀ c ∈ w, isSpaceC c = false) :
    List.Chain' (fun a b => ¬(isSpaceC a = true ∧ isSpaceC b = true)) w := by
  induction w with
  | nil => simp
  | cons c rest ih =>
    rw [List.chain'_cons']
    refine ⟨?_, ih (fun d hd => hw d (List.mem_cons_of_mem _ hd))⟩
    intro y _ hcon
    rw [hw c (List.mem_cons_self _ _)] at hcon
    exact absurd hcon.1 (by simp)

theorem joinSpace_chain (ws : List Str)
    (h : ∀ w ∈ ws, w ≠ [] ∧ ∀ c ∈ w, isSpaceC c = false) :
    List.Chain' (fun a b => ¬(isSpaceC a = true ∧ isSpaceC b = true)) (joinSpace ws) := by
  induction ws with
  | nil => simp [joinSpace]
  | cons w ws2 ih =>
    cases ws2 with
    | nil =>
      exact chain_nonspace w (h w (List.mem_cons_self _ _)).2
    | cons w2 ws3 =>
      rw [joinSpace_two]
      apply List.Chain'.append
      · exact chain_nonspace w (h w (List.mem_cons_self _ _)).2
      · rw [List.chain'_cons']
        refine ⟨?_, ih (fun v hv => h v (List.mem_cons_of_mem _ hv))⟩
        intro y hy hcon
        obtain ⟨v, hv, hyv⟩ := joinSpace_head (w2 :: ws3)
          (fun v hv => (h v (List.mem_cons_of_mem _ hv)).1) y hy
        rw [(h v (List.mem_cons_of_mem _ hv)).2 y hyv] at hcon
        exact absurd hcon.2 (by simp)
      · intro x hx y hy hcon
        rw [(h w (List.mem_cons_self _ _)).2 x (List.mem_of_mem_getLast? hx)] at hcon
        exact absurd hcon.1 (by simp)

theorem joinSpace_space32 (ws : List Str)
    (h : ∀ w ∈ ws, ∀ c ∈ w, isSpaceC c = false) :
    ∀ c ∈ joinSpace ws, isSpaceC c = true → c = 32 := by
  intro c hc hsp
  rcases mem_joinSpace ws c hc with h1 | ⟨w, hw, hcw⟩
  · exact h1
  · rw [h w hw c hcw] at hsp
    exact absurd hsp (by simp)

theorem collapseWs_eq_self : ∀ s : Str,
    List.Chain' (fun a b => ¬(isSpaceC a = true ∧ isSpaceC b = true)) s →
    (∀ c ∈ s, isSpaceC c = true → c = 32) → collapseWs s = s := by
  intro s
  induction s with
  | nil => intro _ _; rfl
  | cons c rest ih =>
    intro h1 h2
    cases rest with
    | nil =>
      rw [collapseWs_one]
      split_ifs with hsp
      · rw [h2 c (List.mem_cons_self _ _) hsp]
      · rfl
    | cons d rest2 =>
      rw [collapseWs_two]
      have hcd := (List.chain'_cons.mp h1).1
      have hna : ¬ (isSpaceC c && isSpaceC d) = true := by
        rw [Bool.and_eq_true]
        exact hcd
      rw [if_neg hna]
      congr 1
      · split_ifs with hsp
        · exact (h2 c (List.mem_cons_self _ _) hsp).symm
        · rfl
      · exact ih (List.chain'_cons.mp h1).2
          (fun e he hsp => h2 e (List.mem_cons_of_mem _ he) hsp)

theorem dropWhile_eq_self_head (s : Str) (h : ∀ c ∈ s.head?, isSpaceC c = false) :
    s.dropWhile isSpaceC = s := by
  cases s with
  | nil => rfl
  | cons c rest =>
    rw [List.dropWhile_cons, h c rfl]
    simp

theorem strip_eq_self (s : Str) (hh : ∀ c ∈ s.head?, isSpaceC c = false)
    (hl : ∀ c ∈ s.getLast?, isSpaceC c = false) : strip s = s := by
  unfold strip
  rw [dropWhile_eq_self_head s hh,
    dropWhile_eq_self_head s.reverse (by rw [List.head?_reverse]; exact hl),
    List.reverse_reverse]

theorem cleanText_joinSpace (ws : List Str)
    (h : ∀ w ∈ ws, w ≠ [] ∧ ∀ c ∈ w, goodChar c) :
    cleanText (joinSpace ws) = joinSpace ws := by
  have hne : ∀ w ∈ ws, w ≠ [] := fun w hw => (h w hw).1
  have hns : ∀ w ∈ ws, ∀ c ∈ w, isSpaceC c = false :=
    fun w hw c hc => ((h w hw).2 c hc).2
  have hal : ∀ w ∈ ws, ∀ c ∈ w, isAllowedC c = true :=
    fun w hw c hc => ((h w hw).2 c hc).1
  have hh : ∀ c ∈ (joinSpace ws).head?, isSpaceC c = false := by
    intro c hc
    obtain ⟨w, hw, hcw⟩ := joinSpace_head ws hne c hc
    exact hns w hw c hcw
  have hl : ∀ c ∈ (joinSpace ws).getLast?, isSpaceC c = false := by
    intro c hc
    obtain ⟨w, hw, hcw⟩ := joinSpace_last ws hne c hc
    exact hns w hw c hcw
  have hf : ∀ c ∈ joinSpace ws, isAllowedC c = true := by
    intro c hc
    rcases mem_joinSpace ws c hc with h1 | ⟨w, hw, hcw⟩
    · rw [h1]
      rfl
    · exact hal w hw c hcw
  unfold cleanText
  rw [strip_eq_self _ hh hl,
    collapseWs_eq_self _ (joinSpace_chain ws (fun w hw => ⟨hne w hw, hns w hw⟩))
      (joinSpace_space32 ws hns),
    List.filter_eq_self.mpr hf]

/-! `_capitalize_properly` facts. -/

theorem capWords_words (ws : List Str) (h : ∀ w ∈ ws, w ≠ [] ∧ ∀ c ∈ w, goodChar c) :
    ∀ i, ∀ w2 ∈ capWords i ws, w2 ≠ [] ∧ ∀ c ∈ w2, goodChar c := by
  induction ws with
  | nil =>
    intro i w2 hw2
    simp [capWords] at hw2
  | cons w ws2 ih =>
    intro i w2 hw2
    rw [capWords_cons] at hw2
    rcases List.mem_cons.mp hw2 with h1 | h1
    · subst h1
      obtain ⟨hne, hch⟩ := h w (List.mem_cons_self _ _)
      split_ifs with hc
      · exact ⟨capWord_ne_nil hne, capWord_chars hch⟩
      · exact ⟨lowWord_ne_nil hne, lowWord_chars hch⟩
    · exact ih (fun v hv => h v (List.mem_cons_of_mem _ hv)) (i + 1) w2 h1

theorem capWords_step_idem (i : Nat) (w : Str) :
    (if i = 0 || !(stopWords.contains (lowWord
        (if i = 0 || !(stopWords.contains (lowWord w)) then capWord w else lowWord w))) then
      capWord (if i = 0 || !(stopWords.contains (lowWord w)) then capWord w else lowWord w)
    else
      lowWord (if i = 0 || !(stopWords.contains (lowWord w)) then capWord w else lowWord w))
    = (if i = 0 || !(stopWords.contains (lowWord w)) then capWord w else lowWord w) := by
  by_cases hc : (decide (i = 0) || !(stopWords.contains (lowWord w))) = true
  · rw [if_pos hc, lowWord_capWord, if_pos hc, capWord_capWord]
  · rw [if_neg hc, lowWord_idem, if_neg hc]

theorem capWords_idem (ws : List Str) : ∀ i, capWords i (capWords i ws) = capWords i ws := by
  induction ws with
  | nil => intro i; rfl
  | cons w ws2 ih =>
    intro i
    rw [capWords_cons, capWords_cons]
    congr 1
    · exact capWords_step_idem i w
    · exact ih (i + 1)

/-! Idempotence of the name pipeline, the price rounding and the currency
default, hence of `clean_product_data`. -/

theorem cleanName_idem (s : Str) : cleanName (cleanName s) = cleanName s := by
  have hwords : ∀ w ∈ splitWs (cleanText s), w ≠ [] ∧ ∀ c ∈ w, goodChar c := by
    intro w hw
    obtain ⟨h1, h2⟩ := splitWs_spec (cleanText s) w hw
    refine ⟨h1, fun c hc => ⟨?_, (h2 c hc).2⟩⟩
    exact List.of_mem_filter (h2 c hc).1
  have hwords2 : ∀ w ∈ capWords 0 (splitWs (cleanText s)), w ≠ [] ∧ ∀ c ∈ w, goodChar c :=
    fun w hw => capWords_words _ hwords 0 w hw
  unfold cleanName capitalizeProperly
  rw [cleanText_joinSpace _ hwords2,
    splitWs_joinSpace _ (fun w hw =>
      ⟨(hwords2 w hw).1, fun c hc => ((hwords2 w hw).2 c hc).2⟩),
    capWords_idem]

theorem pyRoundInt_intCast (z : ℤ) : pyRoundInt (z : ℚ) = z := by
  unfold pyRoundInt
  rw [Int.floor_intCast]
  norm_num

theorem round2_idem (q : ℚ) : round2 (round2 q) = round2 q := by
  unfold round2
  rw [div_mul_cancel₀ _ (by norm_num : (100 : ℚ) ≠ 0), pyRoundInt_intCast]

/-- Claim C8: `clean_product_data` is idempotent — cleaning a record twice
yields the cleaned record: name normalization (strip/collapse/filter plus the
stop-word title-casing), price rounding to 2 decimals and the currency
default are each fixed points on their own outputs. -/
theorem C8_clean_idempotent (p : VProduct) :
    clean_product_data (clean_product_data p) = clean_product_data p := by
  unfold clean_product_data
  simp only [VProduct.mk.injEq]
  refine ⟨?_, ?_, ?_⟩
  · cases hp : p.name with
    | none => rfl
    | some a => simp [cleanName_idem]
  · cases hp : p.price with
    | none => rfl
    | some q => simp [round2_idem]
  · by_cases h1 : truthyStr p.currency = true
    · rw [if_pos h1, if_pos h1]
    · rw [if_neg h1]
      simp [truthyStr, strCodes]

end Validator

namespace Parser

theorem foldl_min_spec (l : List ℚ) : ∀ a : ℚ,
    l.foldl min a ∈ a :: l ∧ ∀ q ∈ a :: l, l.foldl min a ≤ q := by
  induction l with
  | nil =>
    intro a
    refine ⟨by simp, ?_⟩
    intro q hq
    rw [List.mem_singleton] at hq
    simp [hq]
  | cons x xs ih =>
    intro a
    rw [List.foldl_cons]
    obtain ⟨hmem, hle⟩ := ih (min a x)
    constructor
    · rcases List.mem_cons.mp hmem with h | h
      · rcases min_choice a x with hc | hc <;> rw [h, hc] <;> simp
      · simp [h]
    · intro q hq
      rcases List.mem_cons.mp hq with h | h
      · subst h
        exact le_trans (hle _ (List.mem_cons_self _ _)) (min_le_left _ _)
      · rcases List.mem_cons.mp h with h1 | h1
        · subst h1
          exact le_trans (hle _ (List.mem_cons_self _ _)) (min_le_right _ _)
        · exact hle _ (List.mem_cons.mpr (Or.inr h1))

theorem foldl_max_spec (l : List ℚ) : ∀ a : ℚ,
    l.foldl max a ∈ a :: l ∧ ∀ q ∈ a :: l, q ≤ l.foldl max a := by
  induction l with
  | nil =>
    intro a
    refine ⟨by simp, ?_⟩
    intro q hq
    rw [List.mem_singleton] at hq
    simp [hq]
  | cons x xs ih =>
    intro a
    rw [List.foldl_cons]
    obtain ⟨hmem, hle⟩ := ih (max a x)
    constructor
    · rcases List.mem_cons.mp hmem with h | h
      · rcases max_choice a x with hc | hc <;> rw [h, hc] <;> simp
      · simp [h]
    · intro q hq
      rcases List.mem_cons.mp hq with h | h
      · subst h
        exact le_trans (le_max_left _ _) (hle _ (List.mem_cons_self _ _))
      · rcases List.mem_cons.mp h with h1 | h1
        · subst h1
          exact le_trans (le_max_right _ _) (hle _ (List.mem_cons_self _ _))
        · exact hle _ (List.mem_cons.mpr (Or.inr h1))

/-- Claim C5 counterexample: three distinct harvested tokens.  The primary
extractor's assignment takes `prices[0]` and `prices[1]` of the ascending
sorted set, so `old_price` becomes the SECOND smallest value 2000, not the
largest 3000 as claimed. -/
theorem C5_counterexample :
    extract_all_prices_from_line
        [strCodes "1,000.00", strCodes "2,000.00", strCodes "3,000.00"] =
      [1000, 2000, 3000] ∧
    assignPrices [1000, 2000, 3000] = (some 1000, some 2000) ∧
    (assignPrices [1000, 2000, 3000]).2 ≠ some 3000 := by
  have h1 : harvestTok (strCodes "1,000.00") = some 1000 := by
    simp [harvestTok, parseFloatTok, digitsVal, strCodes, isDigitC]
    norm_num
  have h2 : harvestTok (strCodes "2,000.00") = some 2000 := by
    simp [harvestTok, parseFloatTok, digitsVal, strCodes, isDigitC]
    norm_num
  have h3 : harvestTok (strCodes "3,000.00") = some 3000 := by
    simp [harvestTok, parseFloatTok, digitsVal, strCodes, isDigitC]
    norm_num
  have hd : dedupSort [1000, 2000, 3000] = [1000, 2000, 3000] := by
    norm_num [dedupSort, List.dedup, List.insertionSort, List.orderedInsert, List.pwFilter]
  have ha : assignPrices [1000, 2000, 3000] = (some 1000, some 2000) := by
    unfold assignPrices
    rw [hd]
    norm_num
  refine ⟨?_, ha, ?_⟩
  · unfold extract_all_prices_from_line
    rw [List.filterMap_cons, h1, List.filterMap_cons, h2, List.filterMap_cons, h3,
      List.filterMap_nil]
    exact hd
  · rw [ha]
    simp

/-- Claim C5 (amended): the attributed token set is deduplicated and sorted
ascending; the smallest value becomes `price` and the SECOND smallest becomes
`old_price` (for exactly two distinct tokens this is the larger, as in the
spec example `[18990.00, 15990.00]`); the alternative parser instead assigns
the true minimum and maximum. -/
theorem C5_amended_price_assignment (ps : List ℚ) :
    (∀ a b rest, dedupSort ps = a :: b :: rest →
      assignPrices ps = (some a, some b) ∧ a < b ∧
      (∀ q ∈ ps, a ≤ q) ∧ (rest = [] → ∀ q ∈ ps, q ≤ b)) ∧
    (∀ x y ys, ps = x :: y :: ys →
      ∃ m M, assignPricesAlt ps = (some m, some M) ∧
        m ∈ ps ∧ M ∈ ps ∧ ∀ q ∈ ps, m ≤ q ∧ q ≤ M) := by
  constructor
  · intro a b rest h
    have hs := dedupSort_sorted ps
    rw [h] at hs
    have hn := dedupSort_nodup ps
    rw [h] at hn
    have hab : a ≤ b := (List.sorted_cons.mp hs).1 b (List.mem_cons_self _ _)
    have hne : a ≠ b := by
      intro he
      exact (List.nodup_cons.mp hn).1 (he ▸ List.mem_cons_self _ _)
    have hlt : a < b := lt_of_le_of_ne hab hne
    refine ⟨?_, hlt, ?_, ?_⟩
    · unfold assignPrices
      rw [h]
      show (if a > b then (some b, some a) else (some a, some b)) = (some a, some b)
      rw [if_neg (not_lt.mpr hab)]
    · intro q hq
      have hq2 : q ∈ dedupSort ps := mem_dedupSort.mpr hq
      rw [h] at hq2
      rcases List.mem_cons.mp hq2 with h1 | h1
      · simp [h1]
      · exact (List.sorted_cons.mp hs).1 q h1
    · intro hrest q hq
      have hq2 : q ∈ dedupSort ps := mem_dedupSort.mpr hq
      rw [h, hrest] at hq2
      rcases List.mem_cons.mp hq2 with h1 | h1
      · exact h1 ▸ hab
      · simp at h1
        simp [h1]
  · intro x y ys h
    subst h
    unfold assignPricesAlt
    obtain ⟨hminm, hminle⟩ := foldl_min_spec (y :: ys) x
    obtain ⟨hmaxm, hmaxle⟩ := foldl_max_spec (y :: ys) x
    exact ⟨_, _, rfl, hminm, hmaxm, fun q hq => ⟨hminle q hq, hmaxle q hq⟩⟩

/-- Witness for the amended C5 at the spec's own example `[18990, 15990]`:
price 15990, old price 18990. -/
theorem C5_amended_witness :
    assignPrices [18990, 15990] = (some 15990, some 18990) ∧ (15990 : ℚ) < 18990 :=
  And.imp_right (fun h => h.1) <| And.intro
    (((C5_amended_price_assignment [18990, 15990]).1 15990 18990 []
      (by simp [dedupSort, List.dedup, List.insertionSort, List.orderedInsert]; norm_num)).1)
    (((C5_amended_price_assignment [18990, 15990]).1 15990 18990 []
      (by simp [dedupSort, List.dedup, List.insertionSort, List.orderedInsert]; norm_num)).2)

/-- Claim C6 counterexample: a line with a model and a name but no harvested
price anywhere is still emitted by `_extract_denon_product` — with NO price
at all (the emission check accepts `price or model`). -/
theorem C6_counterexample :
    extract_denon_product modelC6 nameC6 [] =
      some { name := nameC6, model := modelC6, price := none, old_price := none } := by
  simp [extract_denon_product, assignPrices, dedupSort, truthyPrice, modelC6, nameC6, strCodes,
    List.dedup, List.insertionSort]

/-- Claim C6 (amended): every candidate the primary extractor emits carries a
non-empty name and either a truthy (present, nonzero) price or a non-empty
model; only the alternative parser insists on a truthy price. -/
theorem C6_amended_emission (model name : Str) (prices : List ℚ) (p : DProduct) :
    (extract_denon_product model name prices = some p →
      p.name ≠ [] ∧ (truthyPrice p.price = true ∨ p.model ≠ [])) ∧
    (alternative_parse_emit model name prices = some p →
      p.name ≠ [] ∧ ∃ q, p.price = some q ∧ q ≠ 0) := by
  constructor
  · intro h
    unfold extract_denon_product at h
    split at h
    · next hc =>
      rw [Bool.and_eq_true] at hc
      obtain ⟨hb1, hb2⟩ := hc
      cases h
      constructor
      · simpa using hb1
      · rw [Bool.or_eq_true] at hb2
        rcases hb2 with h2 | h2
        · exact Or.inl h2
        · exact Or.inr (by simpa using h2)
    · exact absurd h (by simp)
  · intro h
    unfold alternative_parse_emit at h
    split at h
    · next hc =>
      rw [Bool.and_eq_true] at hc
      obtain ⟨hb1, hb2⟩ := hc
      cases h
      constructor
      · simpa using hb1
      · unfold truthyPrice at hb2
        rcases hp : (assignPricesAlt prices).1 with _ | q
        · rw [hp] at hb2; simp at hb2
        · rw [hp] at hb2
          simp at hb2
          exact ⟨q, rfl, hb2⟩
    · exact absurd h (by simp)

/-- Witness for the amended C6 at a concrete emitted candidate of the
alternative parser. -/
theorem C6_amended_witness :
    ({ name := nameC6, model := modelC6, price := some 15990, old_price := none
       : DProduct }).name ≠ [] ∧
    ∃ q, ({ name := nameC6, model := modelC6, price := some 15990, old_price := none
       : DProduct }).price = some q ∧ q ≠ 0 :=
  (C6_amended_emission modelC6 nameC6 [15990] _).2
    (by simp [alternative_parse_emit, assignPricesAlt, truthyPrice, nameC6, strCodes])

theorem harvestTok_range (s : Str) (p : ℚ) (h : harvestTok s = some p) :
    500 ≤ p ∧ p ≤ 500000 := by
  unfold harvestTok at h
  dsimp only at h
  split at h
  · split at h
    · split at h
      · next hc =>
        cases h
        rw [Bool.and_eq_true] at hc
        constructor
        · simpa using hc.1
        · simpa using hc.2
      · exact absurd h (by simp)
    · exact absurd h (by simp)
  · exact absurd h (by simp)

theorem extract_prices_range (toks : List Str) (p : ℚ)
    (h : p ∈ extract_all_prices_from_line toks) : 500 ≤ p ∧ p ≤ 500000 := by
  unfold extract_all_prices_from_line at h
  rw [mem_dedupSort, List.mem_filterMap] at h
  obtain ⟨t, _, ht⟩ := h
  exact harvestTok_range t p ht

theorem context_prices_range (lines : List Line) (idx : ℤ) (ident : Str) (p : ℚ)
    (h : p ∈ find_prices_in_context lines idx ident) : 500 ≤ p ∧ p ≤ 500000 := by
  unfold find_prices_in_context at h
  rw [mem_dedupSort, List.mem_flatMap] at h
  obtain ⟨off, _, hoff⟩ := h
  unfold contextContrib at hoff
  dsimp only at hoff
  split at hoff
  · split at hoff
    · exact extract_prices_range _ p hoff
    · simp at hoff
  · simp at hoff

theorem assignPrices_range (ps : List ℚ) (hps : ∀ q ∈ ps, 500 ≤ q ∧ q ≤ 500000) :
    (∀ q, (assignPrices ps).1 = some q → 500 ≤ q ∧ q ≤ 500000) ∧
    (∀ q, (assignPrices ps).2 = some q → 500 ≤ q ∧ q ≤ 500000) := by
  unfold assignPrices
  cases hd : dedupSort ps with
  | nil => simp
  | cons a tail =>
    have ha : a ∈ ps := mem_dedupSort.mp (hd ▸ List.mem_cons_self _ _)
    cases tail with
    | nil =>
      dsimp only
      constructor
      · intro q hq
        cases hq
        exact hps a ha
      · intro q hq
        exact absurd hq (by simp)
    | cons b tail2 =>
      have hb : b ∈ ps :=
        mem_dedupSort.mp (hd ▸ List.mem_cons_of_mem _ (List.mem_cons_self _ _))
      dsimp only
      split_ifs
      · constructor
        · intro q hq
          cases hq
          exact hps b hb
        · intro q hq
          cases hq
          exact hps a ha
      · constructor
        · intro q hq
          cases hq
          exact hps a ha
        · intro q hq
          cases hq
          exact hps b hb

theorem assignPricesAlt_range (ps : List ℚ) (hps : ∀ q ∈ ps, 500 ≤ q ∧ q ≤ 500000) :
    (∀ q, (assignPricesAlt ps).1 = some q → 500 ≤ q ∧ q ≤ 500000) ∧
    (∀ q, (assignPricesAlt ps).2 = some q → 500 ≤ q ∧ q ≤ 500000) := by
  unfold assignPricesAlt
  cases ps with
  | nil => simp
  | cons x tail =>
    cases tail with
    | nil =>
      dsimp only
      constructor
      · intro q hq
        cases hq
        exact hps x (List.mem_cons_self _ _)
      · intro q hq
        exact absurd hq (by simp)
    | cons y ys =>
      dsimp only
      obtain ⟨hminm, _⟩ := foldl_min_spec (y :: ys) x
      obtain ⟨hmaxm, _⟩ := foldl_max_spec (y :: ys) x
      constructor
      · intro q hq
        cases hq
        exact hps _ hminm
      · intro q hq
        cases hq
        exact hps _ hmaxm

/-- Claim C10: every price token harvested from a line lies in
[500, 500000] (tokens outside the range are silently discarded, so a genuine
product priced below 500 can never receive a harvested price); context
harvesting and both price-assignment paths stay within the range. -/
theorem C10_price_range :
    (∀ (toks : List Str) (p : ℚ), p ∈ extract_all_prices_from_line toks →
      500 ≤ p ∧ p ≤ 500000) ∧
    (∀ (lines : List Line) (idx : ℤ) (ident : Str) (p : ℚ),
      p ∈ find_prices_in_context lines idx ident → 500 ≤ p ∧ p ≤ 500000) ∧
    (∀ ps : List ℚ, (∀ q ∈ ps, 500 ≤ q ∧ q ≤ 500000) →
      (∀ q, (assignPrices ps).1 = some q → 500 ≤ q ∧ q ≤ 500000) ∧
      (∀ q, (assignPrices ps).2 = some q → 500 ≤ q ∧ q ≤ 500000) ∧
      (∀ q, (assignPricesAlt ps).1 = some q → 500 ≤ q ∧ q ≤ 500000) ∧
      (∀ q, (assignPricesAlt ps).2 = some q → 500 ≤ q ∧ q ≤ 500000)) := by
  refine ⟨extract_prices_range, context_prices_range, ?_⟩
  intro ps hps
  obtain ⟨h1, h2⟩ := assignPrices_range ps hps
  obtain ⟨h3, h4⟩ := assignPricesAlt_range ps hps
  exact ⟨h1, h2, h3, h4⟩

/-- Witness for C10: the token `"1,000.00"` harvests to 1000, inside the
range. -/
theorem C10_price_range_witness : (500 : ℚ) ≤ 1000 ∧ (1000 : ℚ) ≤ 500000 :=
  C10_price_range.1 [strCodes "1,000.00"] 1000
    (by
      have h1 : harvestTok (strCodes "1,000.00") = some 1000 := by
        simp [harvestTok, parseFloatTok, digitsVal, strCodes, isDigitC]
        norm_num
      unfold extract_all_prices_from_line
      rw [mem_dedupSort, List.mem_filterMap]
      exact ⟨strCodes "1,000.00", List.mem_cons_self _ _, h1⟩)

end Parser
